import Mathlib

/-!
Verification of `inspect_ai` git-based task version discovery
(`src/inspect_ai/_eval/task/git_version.py`) and the registry / lazy-loading
component specified in spec sections 3 and 4.2 (implementation exercised by
`tests/util/test_registry.py`).

The Python code is shallowly embedded: the `ast` module's node shapes are
modelled by the inductive `PyNode`, subprocess results (`git log`,
`git show`) by explicit oracle parameters, and `exec` by an oracle function.
-/

/-- A Python constant as carried by `ast.Constant`.  Booleans are kept
separate from integers because `type(True) is bool`, not `int`, even though
`isinstance(True, int)` holds and `True == 1` in Python.  `noneV` is the
`None` constant; `other` stands for any further constant kind (floats,
bytes, complex, ellipsis), none of which satisfies
`isinstance(v, (int, str))`. -/
inductive PyConst : Type where
  | int (n : Int)
  | str (s : String)
  | bool (b : Bool)
  | noneV
  | other
deriving DecidableEq, Repr

/-- Python `isinstance(v, (int, str))`: true for ints, strings and
booleans (`bool` is a subclass of `int`). -/
def PyConst.isIntOrStr : PyConst → Bool
  | .int _ => true
  | .str _ => true
  | .bool _ => true
  | _ => false

/-- Python `isinstance(v, str)`. -/
def PyConst.isStr : PyConst → Bool
  | .str _ => true
  | _ => false

/-- Python `==` between constants of the kinds that can reach the
`versions.get(task_name) == version` comparison (the `version` parameter is
annotated `int | str`, and extracted values satisfy `isIntOrStr`):
ints, strings and booleans compare by value, with `True == 1` and
`False == 0`; `int` never equals `str`; `None == None`. -/
def pyConstEq : PyConst → PyConst → Bool
  | .int a, .int b => a == b
  | .str a, .str b => a == b
  | .bool a, .bool b => a == b
  | .bool a, .int b => (if a then (1 : Int) else 0) == b
  | .int a, .bool b => a == (if b then (1 : Int) else 0)
  | .noneV, .noneV => true
  | _, _ => false

/-- Python `str()` of a constant, as used by the f-string
`f"{task_name}_v{version}"`. -/
def pyConstStr : PyConst → String
  | .int n => toString n
  | .str s => s
  | .bool b => if b then "True" else "False"
  | .noneV => "None"
  | .other => ""

mutual
/-- The fragment of Python's AST that `extract_task_versions` inspects.
Constructors follow the `ast` node classes: `module` (body), `assign`
(targets, value), `functionDef` (name, decorator_list, body), `ret`
(`ast.Return`, zero-or-one value), `classDef`, `exprStmt` (`ast.Expr`),
`constant`, `name`, `call` (func, args, keywords), `keyword`
(arg — `none` models `**kwargs` — and value).  Any other node kind is
`other` with its child nodes.  Child-node lists are a mutual inductive
`PyNodeList` so that all traversals stay structurally recursive. -/
inductive PyNode : Type where
  | module (body : PyNodeList)
  | assign (targets : PyNodeList) (value : PyNode)
  | functionDef (fname : String) (decorators : PyNodeList) (body : PyNodeList)
  | ret (value : PyNodeList)
  | classDef (cname : String) (body : PyNodeList)
  | exprStmt (value : PyNode)
  | constant (c : PyConst)
  | name (id : String)
  | call (func : PyNode) (args : PyNodeList) (keywords : PyNodeList)
  | keyword (arg : Option String) (value : PyNode)
  | other (children : PyNodeList)

/-- A list of `PyNode`s (mutual with `PyNode`). -/
inductive PyNodeList : Type where
  | nil
  | cons (head : PyNode) (tail : PyNodeList)
end

/-- Convert a `PyNodeList` to an ordinary `List PyNode`. -/
def PyNodeList.toList : PyNodeList → List PyNode
  | .nil => []
  | .cons h t => h :: t.toList

/-- Convert an ordinary list into a `PyNodeList` (used to write examples). -/
def pyList : List PyNode → PyNodeList
  | [] => .nil
  | x :: xs => .cons x (pyList xs)

mutual
/-- Number of AST nodes in a tree (each node counts 1). -/
def PyNode.size : PyNode → Nat
  | .module body => 1 + body.size
  | .assign targets value => 1 + targets.size + value.size
  | .functionDef _ decorators body => 1 + decorators.size + body.size
  | .ret value => 1 + value.size
  | .classDef _ body => 1 + body.size
  | .exprStmt value => 1 + value.size
  | .constant _ => 1
  | .name _ => 1
  | .call func args keywords => 1 + func.size + args.size + keywords.size
  | .keyword _ value => 1 + value.size
  | .other children => 1 + children.size

/-- Total node count of a `PyNodeList`. -/
def PyNodeList.size : PyNodeList → Nat
  | .nil => 0
  | .cons h t => h.size + t.size
end

/-- `ast.iter_child_nodes`: the direct child nodes, in field order
(for `FunctionDef` the fields are `args, body, decorator_list, returns`,
so the body precedes the decorator list). -/
def PyNode.children : PyNode → List PyNode
  | .module body => body.toList
  | .assign targets value => targets.toList ++ [value]
  | .functionDef _ decorators body => body.toList ++ decorators.toList
  | .ret value => value.toList
  | .classDef _ body => body.toList
  | .exprStmt value => [value]
  | .constant _ => []
  | .name _ => []
  | .call func args keywords => func :: (args.toList ++ keywords.toList)
  | .keyword _ value => [value]
  | .other children => children.toList

/-- Total node count of a queue of trees. -/
def queueSize (l : List PyNode) : Nat := (l.map PyNode.size).sum

theorem pyNodeList_size_toList (l : PyNodeList) :
    (l.toList.map PyNode.size).sum = l.size := by
  cases l with
  | nil => simp [PyNodeList.toList, PyNodeList.size]
  | cons h t =>
      have ih := pyNodeList_size_toList t
      simp [PyNodeList.toList, PyNodeList.size] at ih ⊢
      omega

theorem queueSize_append (l₁ l₂ : List PyNode) :
    queueSize (l₁ ++ l₂) = queueSize l₁ + queueSize l₂ := by
  simp [queueSize]

theorem pyNode_size_children (n : PyNode) :
    n.size = 1 + queueSize n.children := by
  cases n <;>
    simp [PyNode.children, PyNode.size, queueSize_append, pyNodeList_size_toList,
      queueSize] <;>
    omega

/-- Fuel-driven breadth-first traversal queue: pop a node, append its
children to the queue.  Each step consumes exactly one unit of fuel per
visited node, so `queueSize` of the start queue is exact fuel. -/
def bfsWalkFuel : Nat → List PyNode → List PyNode
  | 0, _ => []
  | _ + 1, [] => []
  | fuel + 1, n :: rest => n :: bfsWalkFuel fuel (rest ++ n.children)

/-- Python's `ast.walk` generalized to a queue of start nodes:
breadth-first enumeration of all nodes in the trees. -/
def bfsWalk (l : List PyNode) : List PyNode :=
  bfsWalkFuel (queueSize l) l

theorem queueSize_queue_step (n : PyNode) (rest : List PyNode) :
    queueSize (n :: rest) = queueSize (rest ++ n.children) + 1 := by
  have h := pyNode_size_children n
  simp [queueSize, queueSize_append] at h ⊢
  have h2 := queueSize_append rest n.children
  simp [queueSize] at h2
  omega

theorem bfsWalk_cons (n : PyNode) (rest : List PyNode) :
    bfsWalk (n :: rest) = n :: bfsWalk (rest ++ n.children) := by
  unfold bfsWalk
  rw [queueSize_queue_step]
  rfl

theorem bfsWalk_nil : bfsWalk [] = [] := rfl

/-! ## Python dict operations (string-keyed, insertion-ordered) -/

/-- `d[k] = v` on a Python dict: overwrite in place if the key exists,
else append. -/
def dictSet (d : List (String × PyConst)) (k : String) (v : PyConst) :
    List (String × PyConst) :=
  if d.any (fun p => p.1 == k) then
    d.map (fun p => if p.1 == k then (k, v) else p)
  else d ++ [(k, v)]

/-- `d.get(k)` on a Python dict: `some` of the stored value, or `none`. -/
def dictGet (d : List (String × PyConst)) (k : String) : Option PyConst :=
  (d.find? (fun p => p.1 == k)).map (fun p => p.2)

/-! ## `extract_task_versions` -/

/-- First pass of `extract_task_versions`: collect module-level constants.
For each top-level `ast.Assign` whose value is an `ast.Constant`, record
every `ast.Name` target whose constant value is `int` or `str`. -/
def collectConstants (body : List PyNode) : List (String × PyConst) :=
  body.foldl
    (fun constants node =>
      match node with
      | .assign targets value =>
          targets.toList.foldl
            (fun constants target =>
              match target, value with
              | .name id, .constant c =>
                  if c.isIntOrStr then dictSet constants id c else constants
              | _, _ => constants)
            constants
      | _ => constants)
    []

/-- The inner `for keyword in decorator.keywords: ... else: ...` loop of
the decorator scan.  Outcomes of the decorator examination:
`found nm` (a task decorator fixing the effective task name `nm`),
`skipFn` (the loop broke with `task_name` still `None`, so the whole
function is skipped), `notTask` (not a task decorator; keep scanning). -/
inductive DecoratorScan : Type where
  | found (nm : String)
  | skipFn
  | notTask
deriving DecidableEq, Repr

/-- Scan a `@task(...)` call's keywords for `name=`: the first keyword
whose arg is `"name"` with an `ast.Constant` value breaks the loop —
yielding that string if it is one (else leaving `task_name = None`,
which skips the function); if the loop completes, the `for`'s `else`
uses the function's own name. -/
def taskCallNameScan (fname : String) : List PyNode → DecoratorScan
  | [] => .found fname
  | kw :: rest =>
      match kw with
      | .keyword (some a) (.constant c) =>
          if a == "name" then
            match c with
            | .str s => .found s
            | _ => .skipFn
          else taskCallNameScan fname rest
      | _ => taskCallNameScan fname rest

/-- Examine a single decorator: a bare `ast.Name` `task` yields the
function's own name; an `ast.Call` whose func is the name `task` runs the
keyword scan; anything else is not recognized. -/
def decoratorScan (fname : String) : PyNode → DecoratorScan
  | .name id => if id == "task" then .found fname else .notTask
  | .call (.name fid) _ keywords =>
      if fid == "task" then taskCallNameScan fname keywords.toList
      else .notTask
  | _ => .notTask

/-- The decorator loop of `extract_task_versions`: the first decorator
that is a bare `task` name or a `task(...)` call breaks the loop; its
result decides the effective task name (`none` means the function
contributes nothing). -/
def taskNameOf (fname : String) : List PyNode → Option String
  | [] => none
  | d :: rest =>
      match decoratorScan fname d with
      | .found nm => some nm
      | .skipFn => none
      | .notTask => taskNameOf fname rest

/-- The `for keyword in child.keywords` loop inside the `Task()` call
scan: the first keyword with arg `"version"` breaks the loop; a literal
`int`/`str` constant is used directly, a name is resolved against the
module-level constants, anything else records nothing. -/
def versionFromKeywords (constants : List (String × PyConst)) :
    List PyNode → Option PyConst
  | [] => none
  | kw :: rest =>
      match kw with
      | .keyword (some a) v =>
          if a == "version" then
            match v with
            | .constant c => if c.isIntOrStr then some c else none
            | .name id => dictGet constants id
            | _ => none
          else versionFromKeywords constants rest
      | _ => versionFromKeywords constants rest

/-- Version contributed by one walked node: only `ast.Call` nodes whose
func is the bare name `Task` are inspected. -/
def taskCallVersion (constants : List (String × PyConst)) :
    PyNode → Option PyConst
  | .call (.name fid) _ keywords =>
      if fid == "Task" then versionFromKeywords constants keywords.toList
      else none
  | _ => none

/-- The versions recorded while walking one `@task`-decorated function:
all `Task(...)` calls anywhere inside the function (in `ast.walk` order)
that carry a resolvable `version=` keyword. -/
def functionTaskVersions (constants : List (String × PyConst)) (fn : PyNode) :
    List PyConst :=
  (bfsWalk [fn]).filterMap (taskCallVersion constants)

/-- One step of the second pass of `extract_task_versions`: a top-level
`ast.FunctionDef` with a recognized task decorator writes
`versions[task_name] = version` for each resolvable `Task(..., version=…)`
call found while walking it; every other statement is skipped. -/
def extractStep (constants : List (String × PyConst))
    (versions : List (String × PyConst)) (node : PyNode) :
    List (String × PyConst) :=
  match node with
  | .functionDef fname decorators body =>
      match taskNameOf fname decorators.toList with
      | none => versions
      | some taskName =>
          (functionTaskVersions constants (.functionDef fname decorators body)).foldl
            (fun versions v => dictSet versions taskName v) versions
  | _ => versions

/-- `extract_task_versions(source)`.  The argument is the result of
`ast.parse(source)`: `none` models a `SyntaxError`, which the function
catches, returning `{}`.  Otherwise it collects module-level constants and
then scans top-level function definitions for task decorators and
`Task(..., version=…)` calls. -/
def extract_task_versions (parsed : Option PyNode) : List (String × PyConst) :=
  match parsed with
  | none => []
  | some tree =>
      let constants := collectConstants tree.children
      tree.children.foldl (extractStep constants) []

/-! ## `find_commit_for_version` -/

/-- The result of `git show commit:file` for one commit, as
`find_commit_for_version` consumes it: `text_nonempty` is the truthiness
of the returned string (the code skips `None` and `""` alike via
`if source:`), and `ast` is what `ast.parse` would produce on it
(`none` on a syntax error). -/
structure PySource : Type where
  text_nonempty : Bool
  ast : Option PyNode

/-- Whether one commit satisfies the scan predicate of
`find_commit_for_version`: its file retrieval must succeed with a
non-empty text whose extracted versions satisfy
`versions.get(task_name) == version` under Python `==`.  A missing key
(`dict.get` returning `None`) equals only `None`. -/
def commitMatches (get_file : String → Option PySource)
    (task_name : String) (version : PyConst) (commit : String) : Bool :=
  match get_file commit with
  | none => false
  | some src =>
      src.text_nonempty &&
        (match dictGet (extract_task_versions src.ast) task_name with
         | none => version == PyConst.noneV
         | some v => pyConstEq v version)

/-- The `for commit in commits` loop of `find_commit_for_version`. -/
def scanCommits (get_file : String → Option PySource)
    (task_name : String) (version : PyConst) :
    List String → Option String
  | [] => none
  | commit :: rest =>
      match get_file commit with
      | none => scanCommits get_file task_name version rest
      | some src =>
          if src.text_nonempty then
            (if (match dictGet (extract_task_versions src.ast) task_name with
                 | none => version == PyConst.noneV
                 | some v => pyConstEq v version)
             then some commit
             else scanCommits get_file task_name version rest)
          else scanCommits get_file task_name version rest

/-- `find_commit_for_version(repo_path, task_file, task_name, version)`.
`log` models the `git log --format=%H -- task_file` call: `none` covers
both a non-zero return code and empty output (the code returns `None` for
either); otherwise it is the commit list from `stdout.strip().split("\n")`,
newest first.  `get_file` models `get_file_at_commit`. -/
def find_commit_for_version (log : Option (List String))
    (get_file : String → Option PySource)
    (task_name : String) (version : PyConst) : Option String :=
  match log with
  | none => none
  | some commits => scanCommits get_file task_name version commits

/-! ## `load_module_from_source` and `load_task_at_version` -/

/-- A live Python module object: its `__name__` and an opaque handle for
the namespace produced by executing source in its `__dict__`. -/
structure PyModuleObj : Type where
  module_name : String
  contents : Nat
deriving DecidableEq, Repr

/-- `load_module_from_source(source, module_name)`: create a fresh module
object bound to `module_name` and `exec` the source in its namespace.
`exec_oracle` models the dynamic-execution collaborator: it either
produces the namespace contents or raises (an error that this function
does not catch). -/
def load_module_from_source (exec_oracle : PySource → Except String Nat)
    (source : PySource) (module_name : String) : Except String PyModuleObj :=
  (exec_oracle source).map (fun contents => ⟨module_name, contents⟩)

/-- `load_task_at_version(repo_path, task_file, task_name, version)`:
locate the commit for the version, re-fetch the file there, and execute it
as a module named `f"{task_name}_v{version}"`.  A missing commit or file
yields `.ok none`; an exception from executing the source propagates as
`.error`. -/
def load_task_at_version (exec_oracle : PySource → Except String Nat)
    (log : Option (List String)) (get_file : String → Option PySource)
    (task_name : String) (version : PyConst) :
    Except String (Option PyModuleObj) :=
  match find_commit_for_version log get_file task_name version with
  | none => .ok none
  | some commit =>
      match get_file commit with
      | none => .ok none
      | some source =>
          if source.text_nonempty then
            (load_module_from_source exec_oracle source
              (task_name ++ "_v" ++ pyConstStr version)).map some
          else .ok none

/-! ## Registry and lazy loading

The registry implementation (`inspect_ai._util.registry`) is not part of
the provided sources — only its tests are — so the definitions below are
modelled from the specification (spec sections 3 and 4.2). -/

/-- `RegistryInfo`: kind tag, namespace-qualified name, and metadata
(spec section 3). -/
structure RegistryInfo : Type where
  type : String
  name : String
  metadata : List (String × PyConst)
deriving DecidableEq, Repr

/-- A registrable object: an opaque payload plus the `RegistryInfo`
attached to it by registration (absent if never registered). -/
structure RegObj : Type where
  payload : Nat
  reg_info : Option RegistryInfo

/-- Modelled from the spec: `registry_info(object)` fetches the tagging
info previously attached to an object, absent if never registered. -/
def registry_info (o : RegObj) : Option RegistryInfo := o.reg_info

/-- Attach registry info to an object (the transfer performed when a lazy
entry is resolved, observed by `test_registry_add_lazy`). -/
def attachInfo (o : RegObj) (i : RegistryInfo) : RegObj :=
  { o with reg_info := some i }

/-- A registry entry: an eagerly registered object, or a lazy entry
holding `(info, loader)` with its cache.  `loadCount` counts loader
invocations (the observable the at-most-once-load properties are about). -/
inductive RegistryEntry : Type where
  | eager (obj : RegObj)
  | lazy (info : RegistryInfo) (loader : Unit → RegObj)
      (cache : Option RegObj) (loadCount : Nat)

/-- One record of the process-wide registry: `(kind, qualified name)`
mapped to an entry. -/
structure RegRecord : Type where
  kind : String
  name : String
  entry : RegistryEntry

/-- Modelled from the spec: the process-wide registry, a keyed store of
`(kind, name)` records. -/
def Registry : Type := List RegRecord

/-- The namespace of framework-built-ins (`PKG_NAME`, i.e. the
`inspect_ai` package), used as a qualification fallback for short names. -/
def builtin_namespace : String := "inspect_ai"

/-- Fetch the entry stored under `(kind, name)`, if any. -/
def lookupEntry (r : Registry) (kind nm : String) : Option RegistryEntry :=
  (r.find? (fun rec => rec.kind == kind && rec.name == nm)).map
    (fun rec => rec.entry)

/-- Replace the entry of the first record keyed `(kind, name)` in place
(the lazy-load cache write). -/
def updateEntry : Registry → String → String → RegistryEntry → Registry
  | [], _, _, _ => []
  | rec :: rest, kind, nm, newEntry =>
      if rec.kind == kind && rec.name == nm then
        { rec with entry := newEntry } :: rest
      else rec :: updateEntry rest kind nm newEntry

/-- `"/" in name`: whether a name contains the namespace separator. -/
def hasNamespaceSep (nm : String) : Bool :=
  nm.data.any (fun ch => ch == '/')

/-- Modelled from the spec: name resolution of `registry_lookup`.  Try the
exact `(kind, name)` key first; if absent and `name` contains no namespace
separator, fall back to the built-in package's qualified form
`{builtin-namespace}/{name}`. -/
def resolveName (r : Registry) (kind nm : String) : Option String :=
  if (lookupEntry r kind nm).isSome then some nm
  else if hasNamespaceSep nm then none
  else if (lookupEntry r kind (builtin_namespace ++ "/" ++ nm)).isSome then
    some (builtin_namespace ++ "/" ++ nm)
  else none

/-- Force the entry under an already-resolved key: an eager entry is
returned as is; a lazy entry with a cache returns the cached object; a
lazy entry without one invokes its loader (once), attaches the registered
info to the produced object, and writes it into the entry's cache in
place. -/
def forceEntry (r : Registry) (kind nm : String) : Option RegObj × Registry :=
  match lookupEntry r kind nm with
  | none => (none, r)
  | some (.eager obj) => (some obj, r)
  | some (.lazy info loader cache count) =>
      match cache with
      | some v => (some v, r)
      | none =>
          let v := attachInfo (loader ()) info
          (some v, updateEntry r kind nm (.lazy info loader (some v) (count + 1)))

/-- Modelled from the spec: `registry_lookup(kind, name)` — resolve the
name (exact match first, built-in namespace fallback for separator-free
names), then force the matched entry, returning the resolved object and
the updated registry. -/
def registry_lookup (r : Registry) (kind nm : String) :
    Option RegObj × Registry :=
  match resolveName r kind nm with
  | none => (none, r)
  | some key => forceEntry r kind key

/-- Modelled from the spec: `registry_add_lazy(info, loader)` stores the
`(info, loader)` pair under `info.name` with no other work at
registration time. -/
def registry_add_lazy (info : RegistryInfo) (loader : Unit → RegObj)
    (r : Registry) : Registry :=
  ⟨info.type, info.name, .lazy info loader none 0⟩ :: r

/-! ## `LazyRegistryObject` (spec section 3) -/

/-- Modelled from the spec: `LazyRegistryObject` holds `info`, a
zero-argument `loader`, an optional `cached_value` and a `loaded` flag
(initially absent/false).  `loadCount` counts loader invocations. -/
structure LazyRegistryObject (α : Type) : Type where
  info : RegistryInfo
  loader : Unit → α
  cached_value : Option α
  loaded : Bool
  loadCount : Nat

/-- A freshly constructed `LazyRegistryObject`: nothing cached, not
loaded, loader never invoked. -/
def mkLazy {α : Type} (info : RegistryInfo) (loader : Unit → α) :
    LazyRegistryObject α :=
  ⟨info, loader, none, false, 0⟩

/-- Modelled from the spec: `LazyRegistryObject.load()`.  If not yet
loaded, invoke the loader, populate `cached_value`, flip `loaded` to true
and return the value; otherwise return the cached value without invoking
the loader. -/
def LazyRegistryObject.load {α : Type} (l : LazyRegistryObject α) :
    Option α × LazyRegistryObject α :=
  if l.loaded then (l.cached_value, l)
  else
    let v := l.loader ()
    (some v, { l with cached_value := some v, loaded := true,
                      loadCount := l.loadCount + 1 })

/-- The results and final state of `n` successive `load()` calls. -/
def loadTrace {α : Type} (l : LazyRegistryObject α) :
    Nat → List (Option α) × LazyRegistryObject α
  | 0 => ([], l)
  | n + 1 =>
      let (results, l') := loadTrace l n
      let (r, l'') := l'.load
      (results ++ [r], l'')

/-! ## Dictionary lemmas -/

theorem dictGet_nil (k : String) : dictGet [] k = none := rfl

theorem find?_map_overwrite_ne (d : List (String × PyConst)) (k k' : String)
    (v : PyConst) (h : k' ≠ k) :
    (d.map (fun p => if p.1 == k then (k, v) else p)).find?
        (fun p => p.1 == k') =
      d.find? (fun p => p.1 == k') := by
  induction d with
  | nil => rfl
  | cons p rest ih =>
      by_cases hpk : p.1 = k
      · have h1 : ((k : String) == k') = false := by simp [Ne.symm h]
        have h2 : (p.1 == k') = false := by simp [hpk, Ne.symm h]
        simp only [List.map_cons, hpk, beq_self_eq_true, if_pos]
        rw [List.find?_cons_of_neg _ (by simpa using h1),
          List.find?_cons_of_neg _ (by simpa using h2)]
        exact ih
      · have hpkb : (p.1 == k) = false := by simp [hpk]
        simp only [List.map_cons, hpkb, Bool.false_eq_true, if_neg,
          if_false]
        by_cases hpk' : p.1 = k'
        · rw [List.find?_cons_of_pos _ (by simp [hpk']),
            List.find?_cons_of_pos _ (by simp [hpk'])]
        · rw [List.find?_cons_of_neg _ (by simp [hpk']),
            List.find?_cons_of_neg _ (by simp [hpk'])]
          exact ih

theorem find?_map_overwrite_self (d : List (String × PyConst)) (k : String)
    (v : PyConst) (h : d.any (fun p => p.1 == k) = true) :
    (d.map (fun p => if p.1 == k then (k, v) else p)).find?
        (fun p => p.1 == k) =
      some (k, v) := by
  induction d with
  | nil => simp at h
  | cons p rest ih =>
      by_cases hpk : p.1 = k
      · simp only [List.map_cons, hpk, beq_self_eq_true, if_pos]
        rw [List.find?_cons_of_pos _ (by simp)]
      · have hpkb : (p.1 == k) = false := by simp [hpk]
        simp only [List.any_cons, hpkb, Bool.false_or] at h
        simp only [List.map_cons, hpkb, Bool.false_eq_true, if_neg, if_false]
        rw [@List.find?_cons_of_neg _ (fun q => q.1 == k) p _ (by simp [hpk])]
        exact ih h

theorem dictGet_dictSet_self (d : List (String × PyConst)) (k : String)
    (v : PyConst) : dictGet (dictSet d k v) k = some v := by
  unfold dictSet dictGet
  by_cases h : d.any (fun p => p.1 == k) = true
  · simp only [h, if_pos]
    rw [find?_map_overwrite_self d k v h]
    rfl
  · simp only [h, if_neg, Bool.not_eq_true]
    rw [List.find?_append]
    have hnone : d.find? (fun p => p.1 == k) = none := by
      rw [List.find?_eq_none]
      intro q hq
      simp only [Bool.not_eq_true]
      by_contra hc
      simp only [Bool.not_eq_false] at hc
      have : d.any (fun p => p.1 == k) = true :=
        List.any_eq_true.mpr ⟨q, hq, hc⟩
      exact h this
    simp [hnone, List.find?]

theorem dictGet_dictSet_ne (d : List (String × PyConst)) (k k' : String)
    (v : PyConst) (h : k' ≠ k) :
    dictGet (dictSet d k v) k' = dictGet d k' := by
  unfold dictSet dictGet
  by_cases hany : d.any (fun p => p.1 == k) = true
  · simp only [hany, if_pos]
    rw [find?_map_overwrite_ne d k k' v h]
  · simp only [hany, if_neg, Bool.not_eq_true]
    rw [List.find?_append]
    cases hfind : d.find? (fun p => p.1 == k') with
    | some q => simp
    | none =>
        have hkk : ((k : String) == k') = false := by simp [Ne.symm h]
        simp [List.find?, hkk]

theorem dictGet_dictSet (d : List (String × PyConst)) (k : String)
    (v : PyConst) (k' : String) :
    dictGet (dictSet d k v) k' = if k' = k then some v else dictGet d k' := by
  by_cases h : k' = k
  · subst h
    simp [dictGet_dictSet_self]
  · simp [h, dictGet_dictSet_ne d k k' v h]

/-! ## Concrete source fixtures -/

/-- Build a keyword argument node. -/
def pyKw (a : String) (v : PyNode) : PyNode := .keyword (some a) v

/-- Build a `Task(...)` call with keyword arguments only. -/
def pyTaskCall (kws : List PyNode) : PyNode :=
  .call (.name "Task") (pyList []) (pyList kws)

/-- The AST of `"@task\ndef my_task():\n    return Task(dataset=[], version=1)"`
(the spec's worked example; the empty list literal is an `ast.List` node,
here `other`). -/
def exampleTaskModule : PyNode :=
  .module (pyList [
    .functionDef "my_task" (pyList [.name "task"]) (pyList [
      .ret (pyList [pyTaskCall [pyKw "dataset" (.other .nil),
        pyKw "version" (.constant (.int 1))]])])])

/-- A module whose only `@task` function is nested inside a top-level
undecorated function:
`def outer():\n    @task\n    def my_task():\n        return Task(dataset=[], version=1)`. -/
def nestedTaskModule : PyNode :=
  .module (pyList [
    .functionDef "outer" (pyList []) (pyList [
      .functionDef "my_task" (pyList [.name "task"]) (pyList [
        .ret (pyList [pyTaskCall [pyKw "dataset" (.other .nil),
          pyKw "version" (.constant (.int 1))]])])])])

/-- `@task(name=1)\ndef f():\n    return Task(version=2)`: the `name=`
keyword is a constant but not a string. -/
def nonStrNameModule : PyNode :=
  .module (pyList [
    .functionDef "f"
      (pyList [.call (.name "task") (pyList [])
        (pyList [pyKw "name" (.constant (.int 1))])])
      (pyList [.ret (pyList [pyTaskCall [pyKw "version" (.constant (.int 2))]])])])

/-- `@task\ndef my_task():\n    return Task(version=LATER)\nLATER = 7`:
the referenced constant is assigned only after the function. -/
def lateConstantModule : PyNode :=
  .module (pyList [
    .functionDef "my_task" (pyList [.name "task"]) (pyList [
      .ret (pyList [pyTaskCall [pyKw "version" (.name "LATER")]])]),
    .assign (pyList [.name "LATER"]) (.constant (.int 7))])

/-- `@task\ndef t1():\n    return Task(dataset=[], version=True)`. -/
def boolVersionModule : PyNode :=
  .module (pyList [
    .functionDef "t1" (pyList [.name "task"]) (pyList [
      .ret (pyList [pyTaskCall [pyKw "dataset" (.other .nil),
        pyKw "version" (.constant (.bool true))]])])])

/-- `FLAG = False` at module level, then `@task\ndef t0():\n    return
Task(version=FLAG)`. -/
def boolConstantModule : PyNode :=
  .module (pyList [
    .assign (pyList [.name "FLAG"]) (.constant (.bool false)),
    .functionDef "t0" (pyList [.name "task"]) (pyList [
      .ret (pyList [pyTaskCall [pyKw "version" (.name "FLAG")]])])])

/-- A module with a decorated task without version, followed by a stray
module-level `Task(version=2)` call:
`@task\ndef t1():\n    return\nTask(version=2)`. -/
def strayCallModule : PyNode :=
  .module (pyList [
    .functionDef "t1" (pyList [.name "task"]) (pyList [.ret (pyList [])]),
    .exprStmt (pyTaskCall [pyKw "version" (.constant (.int 2))])])

/-- An undecorated function containing a `Task(version=3)` call:
`def helper():\n    return Task(version=3)`. -/
def undecoratedModule : PyNode :=
  .module (pyList [
    .functionDef "helper" (pyList []) (pyList [
      .ret (pyList [pyTaskCall [pyKw "version" (.constant (.int 3))]])])])

/-- A commit file oracle returning `boolVersionModule` for every commit. -/
def boolGetFile : String → Option PySource :=
  fun _ => some ⟨true, some boolVersionModule⟩

/-- A commit file oracle returning `boolConstantModule` for every commit. -/
def boolConstGetFile : String → Option PySource :=
  fun _ => some ⟨true, some boolConstantModule⟩

/-! ## Claim C1 -/

theorem scanCommits_eq_find? (get_file : String → Option PySource)
    (task_name : String) (version : PyConst) (commits : List String) :
    scanCommits get_file task_name version commits =
      commits.find? (commitMatches get_file task_name version) := by
  induction commits with
  | nil => rfl
  | cons c rest ih =>
      unfold scanCommits commitMatches
      cases hg : get_file c with
      | none =>
          rw [List.find?_cons_of_neg _ (by simp [commitMatches, hg])]
          exact ih
      | some src =>
          by_cases ht : src.text_nonempty = true
          · by_cases hmatch :
              (match dictGet (extract_task_versions src.ast) task_name with
               | none => version == PyConst.noneV
               | some v => pyConstEq v version) = true
            · simp only [ht, if_pos, hmatch]
              rw [List.find?_cons_of_pos _
                (by simp [commitMatches, hg, ht, hmatch])]
            · simp only [ht, if_pos, hmatch, if_neg, Bool.false_eq_true]
              rw [List.find?_cons_of_neg _
                (by simp [commitMatches, hg, ht, hmatch])]
              exact ih
          · simp only [Bool.not_eq_true] at ht
            simp only [ht, Bool.false_eq_true, if_neg, if_false]
            rw [List.find?_cons_of_neg _ (by simp [commitMatches, hg, ht])]
            exact ih

/-- Claim C1 (amended): `find_commit_for_version` returns the first
commit, in traversal order, whose retrieved non-empty source's extracted
mapping satisfies `versions.get(task_name) == version` under Python `==`
equality (which equates booleans with their integer values, and never
equates `int` with `str`); it returns `none`, rather than raising, when
the history query fails or no commit matches. -/
theorem find_commit_first_match (log : Option (List String))
    (get_file : String → Option PySource)
    (task_name : String) (version : PyConst) :
    find_commit_for_version log get_file task_name version =
        (log.getD []).find? (commitMatches get_file task_name version) ∧
      find_commit_for_version none get_file task_name version = none := by
  constructor
  · cases log with
    | none => rfl
    | some commits =>
        exact scanCommits_eq_find? get_file task_name version commits
  · rfl

/-- Claim C1, counterexample to the claim as stated: with one commit whose
source declares `version=True`, a search for the integer `1` returns that
commit even though the declared version's type (`bool`) differs from the
target's (`int`), so the match is not exact on type. -/
theorem find_commit_bool_counterexample :
    find_commit_for_version (some ["cbool"]) boolGetFile "t1" (.int 1) =
        some "cbool" ∧
      dictGet (extract_task_versions (some boolVersionModule)) "t1" =
        some (.bool true) ∧
      PyConst.bool true ≠ PyConst.int 1 := by
  refine ⟨rfl, rfl, ?_⟩
  decide

/-! ## Claim C4 -/

/-- Claim C4: `extract_task_versions` returns the empty mapping on a
source that fails to parse (it never raises — the embedding is total);
and inside `find_commit_for_version`, a commit whose file retrieval fails
contributes nothing: the scan over that commit equals the scan over the
remaining commits. -/
theorem extract_total_and_scan_continues :
    extract_task_versions none = [] ∧
      ∀ (get_file : String → Option PySource) (task_name : String)
        (version : PyConst) (c : String) (rest : List String),
        get_file c = none →
          find_commit_for_version (some (c :: rest)) get_file task_name
              version =
            find_commit_for_version (some rest) get_file task_name version := by
  refine ⟨rfl, ?_⟩
  intro get_file task_name version c rest hget
  simp only [find_commit_for_version, scanCommits, hget]

/-- Claim C4, witness: a failing retrieval for commit `"c0"` leaves the
scan result equal to the scan of the empty remainder. -/
theorem extract_total_and_scan_continues_witness :
    find_commit_for_version (some ["c0"]) (fun _ => none) "t" (.int 1) =
      find_commit_for_version (some []) (fun _ => none) "t" (.int 1) :=
  extract_total_and_scan_continues.2 (fun _ => none) "t" (.int 1) "c0" [] rfl

/-! ## Claim C10 -/

/-- Claim C10: booleans pass the `isinstance(v, (int, str))` checks, so
`version=True` is recorded as a version (and `FLAG = False` is captured
by the constants pass and resolved); and `find_commit_for_version` called
with integer `1` (resp. `0`) matches a revision declaring `True`
(resp. `False`), because the comparison is Python `==`. -/
theorem bool_versions_recorded_and_matched :
    extract_task_versions (some boolVersionModule) = [("t1", .bool true)] ∧
      extract_task_versions (some boolConstantModule) =
        [("t0", .bool false)] ∧
      find_commit_for_version (some ["c1"]) boolGetFile "t1" (.int 1) =
        some "c1" ∧
      find_commit_for_version (some ["c2"]) boolConstGetFile "t0" (.int 0) =
        some "c2" := by
  refine ⟨rfl, rfl, rfl, rfl⟩

/-! ## Claim C2 -/

/-- Claim C2 (amended): for every function name and every integer or
string literal `V`, a source whose single *top-level* function definition
is decorated with the bare `@task` and returns
`Task(dataset=[], version=V)` extracts exactly `{task_name: V}`.
(Nested definitions do not qualify: the decorator scan only examines
top-level `FunctionDef` statements.) -/
theorem single_task_extraction (fname : String) (c : PyConst)
    (hc : c.isIntOrStr = true) :
    extract_task_versions (some (.module (pyList [
      .functionDef fname (pyList [.name "task"]) (pyList [
        .ret (pyList [pyTaskCall [pyKw "dataset" (.other .nil),
          pyKw "version" (.constant c)]])])]))) = [(fname, c)] := by
  simp [extract_task_versions, PyNode.children, pyList, PyNodeList.toList,
    collectConstants, extractStep, taskNameOf, decoratorScan,
    functionTaskVersions, bfsWalk_cons, bfsWalk_nil, taskCallVersion,
    versionFromKeywords, pyTaskCall, pyKw, hc, dictSet, dictGet]

/-- Claim C2, witness: the spec's worked example
`"@task\ndef my_task():\n    return Task(dataset=[], version=1)"` yields
`{"my_task": 1}`. -/
theorem single_task_extraction_witness :
    extract_task_versions (some exampleTaskModule) =
      [("my_task", PyConst.int 1)] :=
  single_task_extraction "my_task" (.int 1) rfl

/-- Claim C2, counterexample to the claim as stated: the same function
nested inside an undecorated top-level function yields an empty mapping,
not `{"my_task": 1}` — `extract_task_versions` only recognizes top-level
decorated definitions. -/
theorem nested_task_not_extracted :
    extract_task_versions (some nestedTaskModule) = [] ∧
      extract_task_versions (some nestedTaskModule) ≠
        [("my_task", PyConst.int 1)] := by
  refine ⟨rfl, ?_⟩
  decide

/-! ## Claim C5 -/

/-- Claim C5 (amended): the effective task name is the decorator's
`name=` keyword value when it is a string constant; a bare `@task`, a
`@task(...)` call without `name=`, and a `name=` bound to a non-constant
expression all fall back to the function's own name; but a `name=` bound
to a *non-string constant* breaks the keyword loop with no name at all,
so the function is skipped entirely rather than keyed by its own name. -/
theorem effective_task_name (fname s x : String) (c : PyConst)
    (hc : c.isStr = false) :
    taskNameOf fname [.name "task"] = some fname ∧
      taskNameOf fname [.call (.name "task") (pyList [])
        (pyList [pyKw "name" (.constant (.str s))])] = some s ∧
      taskNameOf fname [.call (.name "task") (pyList []) (pyList [])] =
        some fname ∧
      taskNameOf fname [.call (.name "task") (pyList [])
        (pyList [pyKw "name" (.name x)])] = some fname ∧
      taskNameOf fname [.call (.name "task") (pyList [])
        (pyList [pyKw "name" (.constant c)])] = none := by
  refine ⟨rfl, rfl, rfl, rfl, ?_⟩
  cases c <;> simp_all [taskNameOf, decoratorScan, taskCallNameScan, pyKw,
    pyList, PyNodeList.toList, PyConst.isStr]

/-- Claim C5, witness: the five decorator forms at concrete names, with
`@task(name=1)` (a non-string constant) yielding no effective name. -/
theorem effective_task_name_witness :
    taskNameOf "f" [.name "task"] = some "f" ∧
      taskNameOf "f" [.call (.name "task") (pyList [])
        (pyList [pyKw "name" (.constant (.str "X"))])] = some "X" ∧
      taskNameOf "f" [.call (.name "task") (pyList []) (pyList [])] =
        some "f" ∧
      taskNameOf "f" [.call (.name "task") (pyList [])
        (pyList [pyKw "name" (.name "v")])] = some "f" ∧
      taskNameOf "f" [.call (.name "task") (pyList [])
        (pyList [pyKw "name" (.constant (.int 1))])] = none :=
  effective_task_name "f" "X" "v" (.int 1) rfl

/-- Claim C5, counterexample to the claim as stated: for
`@task(name=1)\ndef f(): return Task(version=2)` the claim predicts the
mapping `{"f": 2}` (fallback to the function's own name), but the
function is skipped and the extraction is empty. -/
theorem non_string_name_skips_function :
    extract_task_versions (some nonStrNameModule) = [] ∧
      extract_task_versions (some nonStrNameModule) ≠
        [("f", PyConst.int 2)] := by
  refine ⟨rfl, ?_⟩
  decide

/-! ## Claim C6 -/

/-- Claim C6 (amended): a `version=` keyword referencing a bare name
resolves to the literal value of a *top-level* constant assignment of
that name anywhere in the file — the constants pass scans the whole
module before functions are examined, so an assignment after the function
resolves as well; names bound only to non-literal values, or never
assigned at top level, contribute no version record. -/
theorem version_constant_resolution (fname : String) (c : PyConst)
    (hc : c.isIntOrStr = true) :
    extract_task_versions (some (.module (pyList [
        .assign (pyList [.name "V"]) (.constant c),
        .functionDef fname (pyList [.name "task"]) (pyList [
          .ret (pyList [pyTaskCall [pyKw "version" (.name "V")]])])]))) =
      [(fname, c)] ∧
    extract_task_versions (some (.module (pyList [
        .functionDef fname (pyList [.name "task"]) (pyList [
          .ret (pyList [pyTaskCall [pyKw "version" (.name "V")]])]),
        .assign (pyList [.name "V"]) (.constant c)]))) =
      [(fname, c)] ∧
    extract_task_versions (some (.module (pyList [
        .assign (pyList [.name "V"]) (.other (pyList [.constant c])),
        .functionDef fname (pyList [.name "task"]) (pyList [
          .ret (pyList [pyTaskCall [pyKw "version" (.name "V")]])])]))) =
      [] ∧
    extract_task_versions (some (.module (pyList [
        .functionDef fname (pyList [.name "task"]) (pyList [
          .ret (pyList [pyTaskCall [pyKw "version" (.name "V")]])])]))) =
      [] := by
  refine ⟨?_, ?_, ?_, ?_⟩ <;>
    simp [extract_task_versions, PyNode.children, pyList, PyNodeList.toList,
      collectConstants, extractStep, taskNameOf, decoratorScan,
      functionTaskVersions, bfsWalk_cons, bfsWalk_nil, taskCallVersion,
      versionFromKeywords, pyTaskCall, pyKw, hc, dictSet, dictGet]

/-- Claim C6, witness: with `V = 5` assigned before the function,
`version=V` resolves to 5. -/
theorem version_constant_resolution_witness :
    extract_task_versions (some (.module (pyList [
        .assign (pyList [.name "V"]) (.constant (.int 5)),
        .functionDef "my_task" (pyList [.name "task"]) (pyList [
          .ret (pyList [pyTaskCall [pyKw "version" (.name "V")]])])]))) =
      [("my_task", PyConst.int 5)] :=
  (version_constant_resolution "my_task" (.int 5) rfl).1

/-- Claim C6, counterexample to the claim as stated: in
`@task\ndef my_task(): return Task(version=LATER)` followed by
`LATER = 7`, no assignment of `LATER` occurs earlier in the file, yet the
version resolves to 7 — the constants pass is positional-order-blind. -/
theorem later_assignment_still_resolves :
    extract_task_versions (some lateConstantModule) =
        [("my_task", PyConst.int 7)] ∧
      extract_task_versions (some lateConstantModule) ≠ [] := by
  refine ⟨rfl, ?_⟩
  decide

/-! ## Claim C9 -/

theorem foldl_dictSet_same_key (vs : List PyConst) (tn : String)
    (d : List (String × PyConst)) (k : String)
    (h : (dictGet (vs.foldl (fun a v => dictSet a tn v) d) k).isSome = true) :
    k = tn ∨ (dictGet d k).isSome = true := by
  induction vs generalizing d with
  | nil => exact Or.inr h
  | cons v vs ih =>
      rcases ih (dictSet d tn v) h with h1 | h1
      · exact Or.inl h1
      · rw [dictGet_dictSet] at h1
        by_cases hk : k = tn
        · exact Or.inl hk
        · rw [if_neg hk] at h1
          exact Or.inr h1

theorem extractStep_key_provenance (cs acc : List (String × PyConst))
    (node : PyNode) (k : String)
    (h : (dictGet (extractStep cs acc node) k).isSome = true) :
    (dictGet acc k).isSome = true ∨
      ∃ f d b, node = PyNode.functionDef f d b ∧
        taskNameOf f d.toList = some k := by
  cases node with
  | functionDef f d b =>
      simp only [extractStep] at h
      cases htn : taskNameOf f d.toList with
      | none => rw [htn] at h; exact Or.inl h
      | some tn =>
          rw [htn] at h
          rcases foldl_dictSet_same_key _ tn acc k h with h1 | h1
          · subst h1
            exact Or.inr ⟨f, d, b, rfl, htn⟩
          · exact Or.inl h1
  | module body => exact Or.inl h
  | assign targets value => exact Or.inl h
  | ret value => exact Or.inl h
  | classDef cname body => exact Or.inl h
  | exprStmt value => exact Or.inl h
  | constant c => exact Or.inl h
  | name id => exact Or.inl h
  | call func args keywords => exact Or.inl h
  | keyword arg value => exact Or.inl h
  | other children => exact Or.inl h

theorem foldl_extractStep_key_provenance (l : List PyNode)
    (cs acc : List (String × PyConst)) (k : String)
    (h : (dictGet (l.foldl (extractStep cs) acc) k).isSome = true) :
    (dictGet acc k).isSome = true ∨
      ∃ f d b, (PyNode.functionDef f d b) ∈ l ∧
        taskNameOf f d.toList = some k := by
  induction l generalizing acc with
  | nil => exact Or.inl h
  | cons node rest ih =>
      rcases ih (extractStep cs acc node) h with h1 | h1
      · rcases extractStep_key_provenance cs acc node k h1 with h2 | h2
        · exact Or.inl h2
        · obtain ⟨f, d, b, hnode, htn⟩ := h2
          exact Or.inr ⟨f, d, b, by simp [hnode], htn⟩
      · obtain ⟨f, d, b, hmem, htn⟩ := h1
        exact Or.inr ⟨f, d, b, List.mem_cons_of_mem _ hmem, htn⟩

/-- Claim C9: every entry of `extract_task_versions` is keyed by the
effective task name of some top-level decorated function definition —
`Task(...)` calls contribute only from inside such a function.  In
particular a stray module-level `Task(version=...)` call right after a
decorated function contributes nothing (it is not attributed to the
preceding task, as a running-current-name walk would), and `Task(...)`
calls inside undecorated functions contribute nothing. -/
theorem task_entries_only_from_decorated_functions (tree : PyNode)
    (k : String) :
    ((dictGet (extract_task_versions (some tree)) k).isSome = true →
        ∃ f d b, (PyNode.functionDef f d b) ∈ tree.children ∧
          taskNameOf f d.toList = some k) ∧
      extract_task_versions (some strayCallModule) = [] ∧
      extract_task_versions (some undecoratedModule) = [] := by
  refine ⟨?_, rfl, rfl⟩
  intro h
  simp only [extract_task_versions] at h
  rcases foldl_extractStep_key_provenance tree.children _ [] k h with h1 | h1
  · rw [dictGet_nil] at h1
    simp at h1
  · exact h1

/-- Claim C9, witness: the worked example's entry `"my_task"` is traced
back to its top-level decorated function definition. -/
theorem task_entries_only_from_decorated_functions_witness :
    (dictGet (extract_task_versions (some exampleTaskModule))
        "my_task").isSome = true ∧
      ∃ f d b, (PyNode.functionDef f d b) ∈ exampleTaskModule.children ∧
        taskNameOf f d.toList = some "my_task" :=
  ⟨rfl, (task_entries_only_from_decorated_functions exampleTaskModule
    "my_task").1 rfl⟩

/-! ## Claim C3 -/

theorem load_of_loaded {α : Type} (l : LazyRegistryObject α)
    (h : l.loaded = true) : l.load = (l.cached_value, l) := by
  simp [LazyRegistryObject.load, h]

theorem loadTrace_succ {α : Type} (l : LazyRegistryObject α) (n : Nat) :
    loadTrace l (n + 1) =
      ((loadTrace l n).1 ++ [(loadTrace l n).2.load.1],
        (loadTrace l n).2.load.2) := rfl

theorem loadTrace_mkLazy_succ {α : Type} (info : RegistryInfo)
    (loader : Unit → α) (m : Nat) :
    (loadTrace (mkLazy info loader) (m + 1)).2.loaded = true ∧
      (loadTrace (mkLazy info loader) (m + 1)).2.loadCount = 1 ∧
      (loadTrace (mkLazy info loader) (m + 1)).2.cached_value =
        some (loader ()) ∧
      (loadTrace (mkLazy info loader) (m + 1)).1 =
        List.replicate (m + 1) (some (loader ())) := by
  induction m with
  | zero =>
      simp [loadTrace, LazyRegistryObject.load, mkLazy, List.replicate]
  | succ m ih =>
      obtain ⟨hl, hc, hv, hr⟩ := ih
      have hload :=
        load_of_loaded (loadTrace (mkLazy info loader) (m + 1)).2 hl
      rw [loadTrace_succ, hload]
      exact ⟨hl, hc, hv, by simp [hr, hv, List.replicate_succ']⟩

/-- Claim C3: a fresh `LazyRegistryObject` starts with `loaded = false`
and nothing cached; across any `n ≥ 1` calls to `load()` the loader is
invoked exactly once, `loaded` is true and `cached_value` is populated
with the loaded object from the first call on, and every call returns
that identical object. -/
theorem lazy_object_loads_once {α : Type} (info : RegistryInfo)
    (loader : Unit → α) (n : Nat) (hn : 1 ≤ n) :
    (mkLazy info loader).loaded = false ∧
      (mkLazy info loader).cached_value = none ∧
      (mkLazy info loader).loadCount = 0 ∧
      (loadTrace (mkLazy info loader) n).2.loaded = true ∧
      (loadTrace (mkLazy info loader) n).2.loadCount = 1 ∧
      (loadTrace (mkLazy info loader) n).2.cached_value =
        some (loader ()) ∧
      (loadTrace (mkLazy info loader) n).1 =
        List.replicate n (some (loader ())) := by
  obtain ⟨m, rfl⟩ : ∃ m, n = m + 1 := ⟨n - 1, by omega⟩
  obtain ⟨h1, h2, h3, h4⟩ := loadTrace_mkLazy_succ info loader m
  exact ⟨rfl, rfl, rfl, h1, h2, h3, h4⟩

/-- Claim C3, witness: three successive loads of a concrete lazy object
invoke the loader once and all return the same value. -/
theorem lazy_object_loads_once_witness :
    (mkLazy ⟨"metric", "m", []⟩ (fun _ => (7 : Nat))).loaded = false ∧
      (mkLazy ⟨"metric", "m", []⟩ (fun _ => (7 : Nat))).cached_value =
        none ∧
      (mkLazy ⟨"metric", "m", []⟩ (fun _ => (7 : Nat))).loadCount = 0 ∧
      (loadTrace (mkLazy ⟨"metric", "m", []⟩ (fun _ => (7 : Nat)))
          3).2.loaded = true ∧
      (loadTrace (mkLazy ⟨"metric", "m", []⟩ (fun _ => (7 : Nat)))
          3).2.loadCount = 1 ∧
      (loadTrace (mkLazy ⟨"metric", "m", []⟩ (fun _ => (7 : Nat)))
          3).2.cached_value = some 7 ∧
      (loadTrace (mkLazy ⟨"metric", "m", []⟩ (fun _ => (7 : Nat))) 3).1 =
        List.replicate 3 (some 7) :=
  lazy_object_loads_once ⟨"metric", "m", []⟩ (fun _ => (7 : Nat)) 3
    (by decide)

/-! ## Claim C7 -/

/-- `@task\ndef t7():\n    return Task(dataset=[], version=1)`. -/
def intVersionModule : PyNode :=
  .module (pyList [
    .functionDef "t7" (pyList [.name "task"]) (pyList [
      .ret (pyList [pyTaskCall [pyKw "dataset" (.other .nil),
        pyKw "version" (.constant (.int 1))]])])])

/-- A commit file oracle returning `intVersionModule` for every commit. -/
def intGetFile : String → Option PySource :=
  fun _ => some ⟨true, some intVersionModule⟩

/-- Claim C7: when the version is located, `load_task_at_version` builds
a module bound to the synthetic name `{task_name}_v{version}` by
executing the located source in its namespace and returns the live
module; an exception raised while executing that source propagates
uncaught to the caller. -/
theorem module_materialization
    (exec_oracle : PySource → Except String Nat)
    (log : Option (List String)) (get_file : String → Option PySource)
    (task_name : String) (version : PyConst) (commit : String)
    (src : PySource)
    (hc : find_commit_for_version log get_file task_name version =
      some commit)
    (hs : get_file commit = some src)
    (ht : src.text_nonempty = true) :
    (∀ contents, exec_oracle src = .ok contents →
        load_task_at_version exec_oracle log get_file task_name version =
          .ok (some ⟨task_name ++ "_v" ++ pyConstStr version, contents⟩)) ∧
      ∀ err, exec_oracle src = .error err →
        load_task_at_version exec_oracle log get_file task_name version =
          .error err := by
  constructor
  · intro contents hok
    simp [load_task_at_version, hc, hs, ht, load_module_from_source, hok,
      Except.map]
  · intro err herr
    simp [load_task_at_version, hc, hs, ht, load_module_from_source, herr,
      Except.map]

/-- Claim C7, witness: with the file located at commit `"c7"`, a
successful execution returns the module named `t7_v1`, and a raising
execution propagates the error. -/
theorem module_materialization_witness :
    load_task_at_version (fun _ => .ok 5) (some ["c7"]) intGetFile "t7"
        (.int 1) =
      .ok (some ⟨"t7" ++ "_v" ++ pyConstStr (.int 1), 5⟩) ∧
    load_task_at_version (fun _ => .error "boom") (some ["c7"]) intGetFile
        "t7" (.int 1) = .error "boom" :=
  ⟨(module_materialization (fun _ => .ok 5) (some ["c7"]) intGetFile "t7"
      (.int 1) "c7" ⟨true, some intVersionModule⟩ rfl rfl rfl).1 5 rfl,
   (module_materialization (fun _ => .error "boom") (some ["c7"]) intGetFile
      "t7" (.int 1) "c7" ⟨true, some intVersionModule⟩ rfl rfl rfl).2
     "boom" rfl⟩

/-! ## Claim C8 -/

theorem lookupEntry_add_lazy (info : RegistryInfo) (loader : Unit → RegObj)
    (r : Registry) :
    lookupEntry (registry_add_lazy info loader r) info.type info.name =
      some (.lazy info loader none 0) := by
  simp [lookupEntry, registry_add_lazy, List.find?_cons_of_pos]

theorem lookupEntry_cached (info : RegistryInfo) (loader : Unit → RegObj)
    (v : RegObj) (count : Nat) (r : Registry) :
    lookupEntry (⟨info.type, info.name, .lazy info loader (some v) count⟩
        :: r) info.type info.name =
      some (.lazy info loader (some v) count) := by
  simp [lookupEntry, List.find?_cons_of_pos]

/-- Claim C8: `registry_lookup` resolves a name by exact `(kind, name)`
match first and, for names without a namespace separator, falls back to
the built-in package's qualified form `{builtin-namespace}/{name}`; after
`registry_add_lazy(info, loader)`, the first lookup of that entry invokes
the loader exactly once (the entry's load count becomes 1), returns the
loaded object with the registered info attached (so its name and metadata
match registration), and subsequent lookups of the cached entry return
the identical object with no further load and no registry change. -/
theorem registry_lookup_resolution_and_lazy_load
    (ra rb : Registry) (kinda kindb nma nmb : String)
    (obja objb : RegObj)
    (rc : Registry) (info : RegistryInfo) (loader : Unit → RegObj)
    (ha : lookupEntry ra kinda nma = some (.eager obja))
    (hb1 : hasNamespaceSep nmb = false)
    (hb2 : lookupEntry rb kindb nmb = none)
    (hb3 : lookupEntry rb kindb (builtin_namespace ++ "/" ++ nmb) =
      some (.eager objb)) :
    registry_lookup ra kinda nma = (some obja, ra) ∧
      registry_lookup rb kindb nmb = (some objb, rb) ∧
      registry_lookup (registry_add_lazy info loader rc) info.type
          info.name =
        (some (attachInfo (loader ()) info),
          ⟨info.type, info.name,
            .lazy info loader (some (attachInfo (loader ()) info)) 1⟩
            :: rc) ∧
      registry_info (attachInfo (loader ()) info) = some info ∧
      ∀ v : RegObj,
        registry_lookup
            (⟨info.type, info.name, .lazy info loader (some v) 1⟩ :: rc)
            info.type info.name =
          (some v,
            ⟨info.type, info.name, .lazy info loader (some v) 1⟩ :: rc) := by
  refine ⟨?_, ?_, ?_, rfl, ?_⟩
  · simp [registry_lookup, resolveName, forceEntry, ha]
  · simp [registry_lookup, resolveName, forceEntry, hb1, hb2, hb3]
  · simp [registry_lookup, resolveName, forceEntry, registry_add_lazy,
      lookupEntry, updateEntry]
  · intro v
    simp [registry_lookup, resolveName, forceEntry, lookupEntry]

/-- A concrete eager registry for the exact-match conjunct. -/
def regA : Registry := [⟨"solver", "s1", .eager ⟨1, none⟩⟩]

/-- A concrete registry holding only the namespace-qualified built-in
`inspect_ai/accuracy`. -/
def regB : Registry :=
  [⟨"metric", "inspect_ai/accuracy",
    .eager ⟨2, some ⟨"metric", "inspect_ai/accuracy", []⟩⟩⟩]

/-- The info registered by the lazy-registration conjuncts' witness. -/
def lazyInfo : RegistryInfo :=
  ⟨"metric", "_lazy_registered_metric", [("version", .int 1)]⟩

/-- The loader used by the lazy-registration conjuncts' witness. -/
def lazyLoader : Unit → RegObj := fun _ => ⟨42, none⟩

/-- Claim C8, witness: concrete exact-match and built-in-fallback
lookups, and the lazy registration/lookup sequence at a concrete
registry. -/
theorem registry_lookup_resolution_and_lazy_load_witness :
    registry_lookup regA "solver" "s1" = (some ⟨1, none⟩, regA) ∧
      registry_lookup regB "metric" "accuracy" =
        (some ⟨2, some ⟨"metric", "inspect_ai/accuracy", []⟩⟩, regB) ∧
      registry_lookup (registry_add_lazy lazyInfo lazyLoader [])
          lazyInfo.type lazyInfo.name =
        (some (attachInfo (lazyLoader ()) lazyInfo),
          [⟨lazyInfo.type, lazyInfo.name,
            .lazy lazyInfo lazyLoader
              (some (attachInfo (lazyLoader ()) lazyInfo)) 1⟩]) ∧
      registry_info (attachInfo (lazyLoader ()) lazyInfo) =
        some lazyInfo := by
  obtain ⟨h1, h2, h3, h4, h5⟩ :=
    registry_lookup_resolution_and_lazy_load regA regB "solver" "metric"
      "s1" "accuracy" ⟨1, none⟩
      ⟨2, some ⟨"metric", "inspect_ai/accuracy", []⟩⟩
      [] lazyInfo lazyLoader rfl rfl rfl rfl
  exact ⟨h1, h2, h3, h4⟩
